import Mathlib

/-!
Verification development for the solving engine of the chalk-ndm repository.

The repository ships only two Rust sources: the engine facade
(chalk-rust/src/solve/mod.rs, defining Solution, Successful and their
combinators) and the test module (src/solve/test/mod.rs).  The solver
internals (the inference table and unifier, clause matching, fulfillment,
the recursive solver) are declared there but their code is not present,
so those parts are modelled from the specification (spec.md sections 3,
4.2 to 4.6 and 7) and every such definition is marked with a doc comment
beginning with the words Modelled from the spec.  Definitions taken from
solve/mod.rs keep their source names.

Types are first-order structural terms; an n-ary constructor application
is represented in curried form, so a head constructor mismatch in either
identity or arity shows up as a structural mismatch.  Constructor names,
capability (trait) names and variables are numbers; the mapping between
the numbers and the names of each test program is given where the
program is defined.
-/

/-- Modelled from the spec (section 3, Term and Goal Model; the ir module is
not in src): a structural type term.  A constructor is a numeric name, an
application applies a term to one more argument (curried n-ary
application), a var is an inference (existential) variable and a skol is a
universally quantified placeholder introduced by a forall binder. -/
inductive Ty where
  | con : Nat → Ty
  | apply : Ty → Ty → Ty
  | var : Nat → Ty
  | skol : Nat → Ty
deriving DecidableEq

/-- A substitution, mapping inference-variable identity to bound term
(spec section 3, Substitution). -/
abbrev Subst := List (Nat × Ty)

/-- Modelled from the spec (section 4.1): substitution application,
replacing free inference variables per a Substitution. -/
def substTy (σ : Subst) : Ty → Ty
  | .con f => .con f
  | .apply f a => .apply (substTy σ f) (substTy σ a)
  | .var i => (σ.lookup i).getD (.var i)
  | .skol u => .skol u

/-- Modelled from the spec (section 4.4): renaming of the bound variables
of a clause to fresh inference variables, here by shifting every variable
index up by the next free index. -/
def shiftTy (base : Nat) : Ty → Ty
  | .con f => .con f
  | .apply f a => .apply (shiftTy base f) (shiftTy base a)
  | .var i => .var (base + i)
  | .skol u => .skol u

/-- Whether a term contains an inference variable. -/
def tyHasVar : Ty → Bool
  | .con _ => false
  | .apply f a => tyHasVar f || tyHasVar a
  | .var _ => true
  | .skol _ => false

/-- The head constructor of a term together with its arity, when the term
is a constructor application spine. -/
def headArity : Ty → Option (Nat × Nat)
  | .con f => some (f, 0)
  | .apply f _ =>
    match headArity f with
    | some (c, n) => some (c, n + 1)
    | none => none
  | .var _ => none
  | .skol _ => none

/-- Modelled from the spec (section 4.3; the unify module is not in src):
structural recursive-descent unification.  Constructors must match
exactly, in identity and arity, or unification fails; a pair with a
variable on one side produces a binding. -/
def unify : Ty → Ty → Option Subst
  | .var i, t => some [(i, t)]
  | t, .var i => some [(i, t)]
  | .con f, .con g => if f = g then some [] else none
  | .skol u, .skol v => if u = v then some [] else none
  | .apply f a, .apply g b =>
    match unify f g, unify a b with
    | some σ₁, some σ₂ => some (σ₁ ++ σ₂)
    | _, _ => none
  | _, _ => none

/-- Modelled from the spec (section 3, UniverseIndex; the infer module is
not in src): a lifetime is either an inference variable or a skolemized
(universally quantified) region, each stamped with the universe active at
its introduction. -/
inductive Lifetime where
  | lvar : Nat → Nat → Lifetime
  | lskol : Nat → Lifetime
deriving DecidableEq

/-- Modelled from the spec (section 4.3; the unify module is not in src):
unification of a lifetime-vs-lifetime pair.  A pair where at least one
side is a variable is bound if scoping permits, that is if every universe
in the bound term is visible from the universe of the variable; otherwise
the pair is deferred as an equality constraint to be checked later by an
external region-constraint checker.  The first component of the result is
the list of produced bindings, the second the deferred constraints. -/
def unifyLifetime : Lifetime → Lifetime → List (Nat × Lifetime) × List (Lifetime × Lifetime)
  | .lvar i u, .lvar j v =>
    if v ≤ u then ([(i, .lvar j v)], []) else ([(j, .lvar i u)], [])
  | .lvar i u, .lskol v =>
    if v ≤ u then ([(i, .lskol v)], []) else ([], [(.lvar i u, .lskol v)])
  | .lskol v, .lvar i u =>
    if v ≤ u then ([(i, .lskol v)], []) else ([], [(.lskol v, .lvar i u)])
  | .lskol u, .lskol v =>
    if u = v then ([], []) else ([], [(.lskol u, .lskol v)])

/-- Outcome of solving a lifetime-equality goal: the successfulness flag,
the bindings of the existential lifetime variables and the residual
lifetime-equality constraints. -/
structure LtSolution where
  flag : Bool
  bindings : List (Nat × Lifetime)
  constraints : List (Lifetime × Lifetime)
deriving DecidableEq

/-- Modelled from the spec (sections 4.4 and 8): solving the goal
exists a, forall b, a = b.  The exists binder introduces the inference
variable with identity 0 in universe 0, the forall binder introduces a
skolemized lifetime in the fresh universe 1, and the equality is handed
to the lifetime unifier. -/
def solveExistsForallEq : LtSolution :=
  let r := unifyLifetime (.lvar 0 0) (.lskol 1)
  ⟨true, r.1, r.2⟩

/-- From solve/mod.rs: the two-valued successfulness of a solution.
Yes means every remaining choice point was forced, Maybe means the
answer is ambiguous. -/
inductive Successful where
  | Yes
  | Maybe
deriving DecidableEq

/-- From solve/mod.rs, Successful::and. -/
def Successful.and (a b : Successful) : Successful :=
  match a, b with
  | .Yes, .Yes => .Yes
  | .Maybe, _ => .Maybe
  | _, .Maybe => .Maybe

/-- From solve/mod.rs, Successful::or. -/
def Successful.or (a b : Successful) : Successful :=
  match a, b with
  | .Maybe, .Maybe => .Maybe
  | .Yes, _ => .Yes
  | _, .Yes => .Yes

/-- Modelled from the spec (section 3; the ir module is not in src):
Constrained pairs a value with a set of residual lifetime-equality
obligations. -/
structure Constrained (T : Type) where
  value : T
  constraints : List (Lifetime × Lifetime)

/-- Modelled from the spec (section 3; the ir module is not in src):
Constrained map transforms the carried value and keeps the constraint
set. -/
def Constrained.map {T H : Type} (c : Constrained T) (op : T → H) : Constrained H :=
  ⟨op c.value, c.constraints⟩

/-- Modelled from the spec (section 3; the ir module is not in src):
Quantified attaches a universe-quantifier prefix (here its length) to a
value. -/
structure Quantified (T : Type) where
  value : T
  binders : Nat

/-- Modelled from the spec (section 3; the ir module is not in src):
Quantified map transforms the carried value and keeps the binder
prefix. -/
def Quantified.map {T H : Type} (q : Quantified T) (op : T → H) : Quantified H :=
  ⟨op q.value, q.binders⟩

/-- From solve/mod.rs: a solution is a successfulness flag together with
the refined goal, a quantified constrained payload. -/
structure Solution (G : Type) where
  successful : Successful
  refined_goal : Quantified (Constrained G)

/-- From solve/mod.rs, Solution::map: apply an operation to the payload
inside the refined goal. -/
def Solution.map {G H : Type} (s : Solution G) (op : G → H) : Solution H :=
  ⟨s.successful, s.refined_goal.map (fun c => c.map op)⟩

/-- An atomic domain goal, Implemented(Type, Capability), with the
capability a numeric name (spec section 3, Goal). -/
structure Atom where
  ty : Ty
  trait : Nat
deriving DecidableEq

/-- Modelled from the spec (section 3, Program; lowering is an external
collaborator that produces this clause form): a program clause is an
implication with a universally quantified binder prefix of the given
length, a head Implemented(headTy, headTrait) and a body of subgoals.
The binder variables are numbered from 0. -/
structure Clause where
  binders : Nat
  headTy : Ty
  headTrait : Nat
  body : List Atom
deriving DecidableEq

/-- Modelled from the spec (section 3): the closed fact base, with the
list of capabilities that are marked auto or marker and therefore
coinductive (spec section 4.6). -/
structure MProgram where
  clauses : List Clause
  coinductive : List Nat
deriving DecidableEq

/-- Instantiate one body atom of a clause: rename the clause binders to
fresh inference variables starting at base, then apply the substitution
obtained from unifying the clause head with the goal. -/
def instAtom (base : Nat) (σ : Subst) (a : Atom) : Atom :=
  ⟨substTy σ (shiftTy base a.ty), a.trait⟩

/-- Modelled from the spec (section 4.4; the match_clause module is not
in src): match a clause against an atomic goal.  The clause applies when
the capability names agree and the head type unifies with the goal type
after renaming the clause binders to fresh variables; the candidate is
the produced substitution together with the instantiated body. -/
def matchClause (g : Atom) (c : Clause) (base : Nat) : Option (Subst × List Atom) :=
  if g.trait = c.headTrait then
    match unify g.ty (shiftTy base c.headTy) with
    | some σ => some (σ, c.body.map (instAtom base σ))
    | none => none
  else none

/-- Modelled from the spec (section 4.5; the fulfill module is not in
src): combine the successful candidates for one atomic goal as a
disjunction.  No surviving candidate means definite non-provability;
exactly one surviving candidate is returned as is; two or more surviving
candidates yield Maybe with no inference guidance. -/
def combineCands : List (Successful × Subst) → Option (Successful × Subst)
  | [] => none
  | [c] => some c
  | _ :: _ :: _ => some (.Maybe, [])

/-- The inference variables of a term in order of occurrence. -/
def collectVars : Ty → List Nat
  | .con _ => []
  | .apply f a => collectVars f ++ collectVars a
  | .var i => [i]
  | .skol _ => []

/-- Index of the first occurrence of a number in a list. -/
def idxOfNat (x : Nat) : List Nat → Nat
  | [] => 0
  | y :: ys => if y = x then 0 else idxOfNat x ys + 1

/-- Keep the first occurrence of every number, dropping later ones. -/
def dedupNatAux : List Nat → List Nat → List Nat
  | _, [] => []
  | seen, x :: xs =>
    if x ∈ seen then dedupNatAux seen xs else x :: dedupNatAux (x :: seen) xs

/-- Duplicate-free list of first occurrences. -/
def dedupNat (l : List Nat) : List Nat := dedupNatAux [] l

/-- Rename every inference variable to its position in the given
first-occurrence list. -/
def canonTy (vs : List Nat) : Ty → Ty
  | .con f => .con f
  | .apply f a => .apply (canonTy vs f) (canonTy vs a)
  | .var i => .var (idxOfNat i vs)
  | .skol u => .skol u

/-- Modelled from the spec (section 4.2): canonicalization of a goal for
memoization and cycle detection, replacing every free inference variable
with a fresh position ordered by first occurrence. -/
def canonAtom (a : Atom) : Atom :=
  ⟨canonTy (dedupNat (collectVars a.ty)) a.ty, a.trait⟩

/-- The segment of the assumption stack from its top down to and
including the first occurrence of the given canonical goal: the cycle the
solver has detected (spec section 4.6). -/
def stackCycle (cg : Atom) : List Atom → List Atom
  | [] => []
  | a :: rest => if a = cg then [a] else a :: stackCycle cg rest

/-- A fatal solver failure: the recursion-depth ceiling was exceeded
(spec section 7).  It is a distinct error value, not conflated with
definite non-provability. -/
inductive SolveError where
  | overflow
deriving DecidableEq

/-- Modelled from the spec (section 4.5; the fulfill module is not in
src): solve a conjunction of subgoals left to right with the given
atomic-goal solver, threading the accumulated bindings through the later
subgoals, combining successfulness with Successful.and so that a Maybe
on any subgoal downgrades the whole conjunction. -/
def conjFold (slv : Nat → Atom → Except SolveError (Option (Successful × Subst))) :
    Nat → Subst → List Atom → Except SolveError (Option (Successful × Subst))
  | _, _, [] => .ok (some (.Yes, []))
  | nv, acc, a :: rest =>
    match slv nv ⟨substTy acc a.ty, a.trait⟩ with
    | .error e => .error e
    | .ok none => .ok none
    | .ok (some (s, σ)) =>
      match conjFold slv nv (acc ++ σ) rest with
      | .error e => .error e
      | .ok none => .ok none
      | .ok (some (s₂, σ₂)) => .ok (some (s.and s₂, σ ++ σ₂))

/-- Modelled from the spec (section 4.4): enumerate the clauses
applicable to an atomic goal, solving the body of each matching clause
with the given conjunction solver, skipping candidates that definitely
fail and propagating a fatal error. -/
def clausesFold (cnj : Nat → List Atom → Except SolveError (Option (Successful × Subst)))
    (g : Atom) (nv : Nat) :
    List Clause → Except SolveError (List (Successful × Subst))
  | [] => .ok []
  | c :: cs =>
    match matchClause g c nv with
    | none => clausesFold cnj g nv cs
    | some (σ, body) =>
      match cnj (nv + c.binders) body with
      | .error e => .error e
      | .ok none => clausesFold cnj g nv cs
      | .ok (some (s, σ₂)) =>
        match clausesFold cnj g nv cs with
        | .error e => .error e
        | .ok rest => .ok ((s, σ ++ σ₂) :: rest)

/-- Modelled from the spec (sections 4.4 to 4.6; the solver module is not
in src): the recursive solver for one atomic goal.  The Nat argument is
the remaining recursion depth; exhausting it is the fatal overflow
condition.  The goal is canonicalized and checked against the assumption
stack: on a cycle the solver records a coinductive unconstrained Yes when
every capability in the cycle is coinductive and fails the cycle branch
otherwise.  Otherwise every clause of the environment (local hypotheses
first) and the program is tried and the surviving candidates are
combined as a disjunction. -/
def solveAtom (p : MProgram) (env : List Clause) :
    Nat → List Atom → Nat → Atom → Except SolveError (Option (Successful × Subst))
  | 0 => fun _ _ _ => .error .overflow
  | d + 1 => fun stack nv g =>
    let cg := canonAtom g
    if cg ∈ stack then
      if (stackCycle cg stack).all (fun a => p.coinductive.contains a.trait) then
        .ok (some (.Yes, []))
      else
        .ok none
    else
      match clausesFold
          (fun nv₂ body =>
            conjFold (fun nv₃ a => solveAtom p env d (cg :: stack) nv₃ a) nv₂ [] body)
          g nv (env ++ p.clauses) with
      | .error e => .error e
      | .ok cands => .ok (combineCands cands)

/-- The goals the negation claims range over: atomic goals and
negations (spec section 3, Goal; quantifiers are peeled upstream into
fresh variables, skolems and hypotheses). -/
inductive MGoal where
  | atom : Atom → MGoal
  | not : MGoal → MGoal

/-- Whether a goal contains a free existential (inference) variable. -/
def mgoalHasVar : MGoal → Bool
  | .atom a => tyHasVar a.ty
  | .not g => mgoalHasVar g

/-- Modelled from the spec (section 4.5): solve a goal.  Not(G) is solved
by attempting G to completion; it succeeds with an unconstrained Yes only
if G is definitely unprovable and G has no free existential variable
reachable from the outer scope; a free variable under negation forces
Maybe, never a hard error; a provable G makes the negation definitely
fail. -/
def solveGoal (p : MProgram) (env : List Clause) (d : Nat) (stack : List Atom) (nv : Nat) :
    MGoal → Except SolveError (Option (Successful × Subst))
  | .atom a => solveAtom p env d stack nv a
  | .not g =>
    if mgoalHasVar g then .ok (some (.Maybe, []))
    else
      match solveGoal p env d stack nv g with
      | .error e => .error e
      | .ok none => .ok (some (.Yes, []))
      | .ok (some _) => .ok none

/-- Modelled from the spec (section 6): the core entry point.  nv is the
number of existential variables of the root goal (introduced upstream
when peeling the exists binders); the reported substitution is the
restriction of the accumulated bindings to those root variables.
Ok none is definite non-provability, an error is the fatal overflow. -/
def solveRoot (p : MProgram) (env : List Clause) (nv : Nat) (g : MGoal) (depth : Nat) :
    Except SolveError (Option (Successful × Subst)) :=
  match solveGoal p env depth [] nv g with
  | .error e => .error e
  | .ok none => .ok none
  | .ok (some (s, σ)) => .ok (some (s, σ.filter (fun x => decide (x.1 < nv))))

/-- Whether a solver outcome is a solution (unique or ambiguous). -/
def isProvableB (r : Except SolveError (Option (Successful × Subst))) : Bool :=
  match r with
  | .ok (some _) => true
  | _ => false

/-- Modelled from the spec (section 4.6): the outer fixed-point loop of
the recursive solver.  Each round recomputes the answer for a goal from
the assumption of the previous round; the loop stops when the answer is
stable, and an answer of Maybe is terminal for the goal, so a Yes from an
earlier round is never locked in once Maybe has been seen. -/
def iterateRounds (round : Option Successful → Option Successful) :
    Nat → Option Successful → Option Successful
  | 0, a => a
  | n + 1, a =>
    let r := round a
    if r = some .Maybe then r
    else if r = a then iterateRounds round n r
    else iterateRounds round n r

/-!
The concrete test programs of the claims.  Each program lists its clauses
in source order; the numeric names are given per program.
-/

/-- C1 program (struct Foo is 0, Bar is 1, Vec is 2; trait Clone is 0):
the impl of Clone for Vec T where T is Clone, and the impl of Clone for
Foo. -/
def cloneProgram : MProgram :=
  ⟨[⟨1, .apply (.con 2) (.var 0), 0, [⟨.var 0, 0⟩]⟩,
    ⟨0, .con 0, 0, []⟩], []⟩

/-- C3 program (trait Send is 0; struct i32 is 0, Ptr is 1, List is 2):
the explicit impl of Send for Ptr T where T is Send, the auto clause for
i32 (no fields) and the auto clause for List T, whose fields are a T and
a Ptr of List T.  Send is an auto capability, hence coinductive. -/
def sendProgram : MProgram :=
  ⟨[⟨1, .apply (.con 1) (.var 0), 0, [⟨.var 0, 0⟩]⟩,
    ⟨0, .con 0, 0, []⟩,
    ⟨1, .apply (.con 2) (.var 0), 0,
      [⟨.var 0, 0⟩, ⟨.apply (.con 1) (.apply (.con 2) (.var 0)), 0⟩]⟩], [0]⟩

/-- C3 environment: the hypothesis that the skolemized T is Send,
introduced by the implication goal. -/
def sendHyps : List Clause := [⟨0, .skol 0, 0, []⟩]

/-- C4 program (trait Send is 0 and coinductive, trait Foo is 1): Send
for every T where T is Foo, and Foo for every T where T is Send. -/
def mixedProgram : MProgram :=
  ⟨[⟨1, .var 0, 0, [⟨.var 0, 1⟩]⟩,
    ⟨1, .var 0, 1, [⟨.var 0, 0⟩]⟩], [0]⟩

/-- C5 program (trait WF is 0, Sized is 1; struct Vec is 0, Int is 1), in
source order: Sized for Int, WF for Int, WF for Vec T where T is Sized,
and Sized for Vec T where T is WF and T is Sized. -/
def wfProgram : MProgram :=
  ⟨[⟨0, .con 1, 1, []⟩,
    ⟨0, .con 1, 0, []⟩,
    ⟨1, .apply (.con 0) (.var 0), 0, [⟨.var 0, 1⟩]⟩,
    ⟨1, .apply (.con 0) (.var 0), 1, [⟨.var 0, 0⟩, ⟨.var 0, 1⟩]⟩], []⟩

/-- The C5 program with its clauses in the reversed order, so that the
other cyclic branch is explored first. -/
def wfProgramRev : MProgram := ⟨wfProgram.clauses.reverse, []⟩

/-- C7 clause (trait Q is 0; struct Z is 0): Q holds for Z. -/
def zC : Clause := ⟨0, .con 0, 0, []⟩

/-- C7 clause (struct G is 1): Q holds for G X when X is Q. -/
def gC : Clause := ⟨1, .apply (.con 1) (.var 0), 0, [⟨.var 0, 0⟩]⟩

/-- C7 clause (struct S is 2): Q holds for S X when X is Q and S of G of
X is Q. -/
def sC : Clause :=
  ⟨1, .apply (.con 2) (.var 0), 0,
    [⟨.var 0, 0⟩, ⟨.apply (.con 2) (.apply (.con 1) (.var 0)), 0⟩]⟩

/-- C7 program (trait Q is 0; struct Z is 0, G is 1, S is 2): Q for Z, Q
for G X where X is Q, and Q for S X where X is Q and S of G of X is Q. -/
def overflowProgram : MProgram := ⟨[zC, gC, sC], []⟩

/-- The n-fold application of G to Z. -/
def GiterZ : Nat → Ty
  | 0 => .con 0
  | n + 1 => .apply (.con 1) (GiterZ n)

/-- The goal that the n-fold G of Z is Q. -/
def gAtomN (n : Nat) : Atom := ⟨GiterZ n, 0⟩

/-- The goal that S of the n-fold G of Z is Q. -/
def sAtomN (n : Nat) : Atom := ⟨.apply (.con 2) (GiterZ n), 0⟩

theorem unify_refl_of_ground (t : Ty) (h : tyHasVar t = false) : unify t t = some [] := by
  induction t with
  | con f => simp [unify]
  | apply f a ihf iha =>
    simp [tyHasVar] at h
    simp [unify, ihf h.1, iha h.2]
  | var i => simp [tyHasVar] at h
  | skol u => simp [unify]

theorem unify_head_mismatch (s t : Ty) (c₁ n₁ c₂ n₂ : Nat)
    (hs : headArity s = some (c₁, n₁)) (ht : headArity t = some (c₂, n₂))
    (hne : c₁ ≠ c₂ ∨ n₁ ≠ n₂) : unify s t = none := by
  induction s generalizing t c₁ n₁ c₂ n₂ with
  | con f =>
    simp only [headArity, Option.some.injEq, Prod.mk.injEq] at hs
    cases t with
    | con g =>
      simp only [headArity, Option.some.injEq, Prod.mk.injEq] at ht
      have : f ≠ g := by
        intro hEq
        rcases hne with h | h
        · exact h (hs.1.symm.trans (hEq.trans ht.1))
        · exact h (hs.2.symm.trans ht.2)
      simp [unify, this]
    | apply g b => simp [unify]
    | var i => simp [headArity] at ht
    | skol u => simp [headArity] at ht
  | apply f a ihf _ =>
    cases t with
    | con g => simp [unify]
    | apply g b =>
      cases hf : headArity f with
      | none => rw [headArity, hf] at hs; exact absurd hs (by simp)
      | some pf =>
        cases hg : headArity g with
        | none => rw [headArity, hg] at ht; exact absurd ht (by simp)
        | some pg =>
          rw [headArity, hf] at hs
          rw [headArity, hg] at ht
          simp only [Option.some.injEq, Prod.mk.injEq] at hs ht
          have hmm : pf.1 ≠ pg.1 ∨ pf.2 ≠ pg.2 := by
            rcases hne with h | h
            · exact Or.inl (by intro hEq; exact h (hs.1 ▸ ht.1 ▸ hEq ▸ rfl))
            · refine Or.inr ?_
              intro hEq
              exact h (by rw [← hs.2, ← ht.2, hEq])
          have := ihf g pf.1 pf.2 pg.1 pg.2 (by simp [hf]) (by simp [hg]) hmm
          simp [unify, this]
    | var i => simp [headArity] at ht
    | skol u => simp [headArity] at ht
  | var i => simp [headArity] at hs
  | skol u => simp [headArity] at hs

/-- C8: for every ground term the unifier succeeds on the term against
itself with the empty substitution, and whenever two terms have head
constructors differing in identity or arity the unifier fails. -/
theorem unify_soundness_spec :
    (∀ t : Ty, tyHasVar t = false → unify t t = some []) ∧
    (∀ (s t : Ty) (c₁ n₁ c₂ n₂ : Nat),
      headArity s = some (c₁, n₁) → headArity t = some (c₂, n₂) →
      (c₁ ≠ c₂ ∨ n₁ ≠ n₂) → unify s t = none) :=
  ⟨unify_refl_of_ground, unify_head_mismatch⟩

theorem unify_soundness_spec_witness :
    unify (Ty.apply (Ty.con 0) (Ty.con 1)) (Ty.apply (Ty.con 0) (Ty.con 1)) = some [] ∧
    unify (Ty.apply (Ty.con 0) (Ty.con 1)) (Ty.con 0) = none :=
  ⟨unify_soundness_spec.1 _ (by decide),
   unify_soundness_spec.2 _ _ 0 1 0 0 (by decide) (by decide) (Or.inr (by decide))⟩

/-- C1: for the Clone program, the goal that Vec of Foo is Clone has a
unique solution with the empty substitution, the goal that Bar is Clone
is definitely non-provable, and the goal that Vec of Bar is Clone is
definitely non-provable. -/
theorem prove_clone_spec :
    solveRoot cloneProgram [] 0 (.atom ⟨.apply (.con 2) (.con 0), 0⟩) 10 =
      .ok (some (.Yes, [])) ∧
    solveRoot cloneProgram [] 0 (.atom ⟨.con 1, 0⟩) 10 = .ok none ∧
    solveRoot cloneProgram [] 0 (.atom ⟨.apply (.con 2) (.con 1), 0⟩) 10 = .ok none :=
  ⟨rfl, rfl, rfl⟩

/-- C2: solving the goal exists a, forall b, a = b defers the equality as
a residual constraint instead of binding the outer existential lifetime
to the inner universal one, so the result is constrained and is never a
direct unconstrained unification; in general a lifetime variable of an
outer universe is never bound to a skolem of a strictly larger
universe. -/
theorem unify_quantified_lifetimes_spec :
    (solveExistsForallEq.bindings = [] ∧
     solveExistsForallEq.constraints = [(.lvar 0 0, .lskol 1)]) ∧
    (∀ i u v : Nat, u < v →
      unifyLifetime (.lvar i u) (.lskol v) = ([], [(.lvar i u, .lskol v)])) := by
  refine ⟨⟨rfl, rfl⟩, ?_⟩
  intro i u v h
  simp only [unifyLifetime]
  rw [if_neg (by omega)]

theorem unify_quantified_lifetimes_spec_witness :
    (0 : Nat) < 1 ∧ unifyLifetime (.lvar 0 0) (.lskol 1) = ([], [(.lvar 0 0, .lskol 1)]) :=
  ⟨by decide, unify_quantified_lifetimes_spec.2 0 0 1 (by decide)⟩

/-- C3: for the Send program, solving the goal that List of T is Send
under the hypothesis that the skolemized T is Send yields a definite
unique unconstrained success, the cyclic proof through Ptr being accepted
because Send is coinductive. -/
theorem coinductive_semantics_spec :
    solveRoot sendProgram sendHyps 0 (.atom ⟨.apply (.con 2) (.skol 0), 0⟩) 10 =
      .ok (some (.Yes, [])) := rfl

/-- C4: for the program whose cycle mixes the coinductive Send with the
non-coinductive Foo, solving the existential goals that some T is Send
and that some T is Foo both yield definite non-provability. -/
theorem mixed_semantics_spec :
    solveRoot mixedProgram [] 1 (.atom ⟨.var 0, 0⟩) 10 = .ok none ∧
    solveRoot mixedProgram [] 1 (.atom ⟨.var 0, 1⟩) 10 = .ok none :=
  ⟨rfl, rfl⟩

/-- C5: for the WF and Sized program, the existential goal that some T is
WF yields Maybe, and yields the same Maybe when the clauses are explored
in the reversed order; moreover in the outer fixed-point loop a round
that produces Maybe is terminal, so a Yes from an earlier round is never
locked in once Maybe has been seen. -/
theorem multiple_ambiguous_cycles_spec :
    solveRoot wfProgram [] 1 (.atom ⟨.var 0, 0⟩) 10 = .ok (some (.Maybe, [])) ∧
    solveRoot wfProgramRev [] 1 (.atom ⟨.var 0, 0⟩) 10 = .ok (some (.Maybe, [])) ∧
    (∀ (round : Option Successful → Option Successful) (n : Nat)
       (a : Option Successful), round a = some .Maybe →
        iterateRounds round (n + 1) a = some .Maybe) := by
  refine ⟨rfl, rfl, ?_⟩
  intro round n a h
  simp [iterateRounds, h]

theorem multiple_ambiguous_cycles_spec_witness :
    iterateRounds (fun _ => some .Maybe) 1 none = some .Maybe :=
  multiple_ambiguous_cycles_spec.2.2 (fun _ => some .Maybe) 0 none rfl

/-- C6: for every goal without free existential variables, the double
negation is provable exactly when the goal is provable; and the negation
of a goal with a free existential variable is always the ambiguous
unconstrained Maybe, never a definite answer. -/
theorem simple_negation_spec :
    (∀ (p : MProgram) (env : List Clause) (d : Nat) (stack : List Atom) (nv : Nat)
       (g : MGoal) (r : Option (Successful × Subst)),
        mgoalHasVar g = false → solveGoal p env d stack nv g = .ok r →
        isProvableB (solveGoal p env d stack nv (.not (.not g))) = r.isSome) ∧
    (∀ (p : MProgram) (env : List Clause) (d : Nat) (stack : List Atom) (nv : Nat)
       (g : MGoal), mgoalHasVar g = true →
        solveGoal p env d stack nv (.not g) = .ok (some (.Maybe, []))) := by
  constructor
  · intro p env d stack nv g r hg hr
    cases r with
    | none => simp [solveGoal, mgoalHasVar, hg, hr, isProvableB]
    | some s => simp [solveGoal, mgoalHasVar, hg, hr, isProvableB]
  · intro p env d stack nv g hg
    simp [solveGoal, hg]

theorem simple_negation_spec_witness :
    isProvableB (solveGoal ⟨[], []⟩ [] 5 [] 0 (.not (.not (.atom ⟨.con 0, 0⟩)))) =
      (none : Option (Successful × Subst)).isSome ∧
    solveGoal ⟨[], []⟩ [] 5 [] 1 (.not (.atom ⟨.var 0, 0⟩)) = .ok (some (.Maybe, [])) :=
  ⟨simple_negation_spec.1 ⟨[], []⟩ [] 5 [] 0 (.atom ⟨.con 0, 0⟩) none rfl rfl,
   simple_negation_spec.2 ⟨[], []⟩ [] 5 [] 1 (.atom ⟨.var 0, 0⟩) rfl⟩

/-- C9: combining the surviving candidates of overlapping clauses for one
atomic goal as a disjunction: when exactly one alternative succeeds as
Yes and every other alternative definitely failed (failed candidates are
dropped before combination), the combined result is that unique Yes with
its substitution; when two or more alternatives could succeed, the
combined result is Maybe. -/
theorem successful_disjunction_spec :
    (∀ σ : Subst, combineCands [(Successful.Yes, σ)] = some (Successful.Yes, σ)) ∧
    (∀ cands : List (Successful × Subst), 2 ≤ cands.length →
      combineCands cands = some (Successful.Maybe, [])) := by
  constructor
  · intro σ; rfl
  · intro cands h
    match cands with
    | [] => simp at h
    | [c] => simp at h
    | a :: b :: rest => rfl

theorem successful_disjunction_spec_witness :
    combineCands [(Successful.Yes, [])] = some (Successful.Yes, []) ∧
    combineCands [(Successful.Yes, []), (Successful.Yes, [])] = some (Successful.Maybe, []) :=
  ⟨successful_disjunction_spec.1 [], successful_disjunction_spec.2 _ (by decide)⟩

/-- C10: Solution.map leaves the successful field unchanged, keeps the
quantifier prefix and the residual constraints, and transforms only the
value inside the Constrained payload, so a definite solution can never
become ambiguous through mapping, nor the other way round. -/
theorem solution_map_spec :
    ∀ (G H : Type) (s : Solution G) (op : G → H),
      (s.map op).successful = s.successful ∧
      (s.map op).refined_goal.binders = s.refined_goal.binders ∧
      (s.map op).refined_goal.value.constraints = s.refined_goal.value.constraints ∧
      (s.map op).refined_goal.value.value = op s.refined_goal.value.value :=
  fun _ _ _ _ => ⟨rfl, rfl, rfl, rfl⟩

theorem giterZ_hasVar (n : Nat) : tyHasVar (GiterZ n) = false := by
  induction n with
  | zero => rfl
  | succ n ih => simp [GiterZ, tyHasVar, ih]

theorem giterZ_inj {m n : Nat} (h : GiterZ m = GiterZ n) : m = n := by
  induction m generalizing n with
  | zero =>
    cases n with
    | zero => rfl
    | succ n => simp [GiterZ] at h
  | succ m ih =>
    cases n with
    | zero => simp [GiterZ] at h
    | succ n =>
      simp only [GiterZ, Ty.apply.injEq] at h
      exact congrArg Nat.succ (ih h.2)

theorem collectVars_of_ground (t : Ty) (h : tyHasVar t = false) : collectVars t = [] := by
  induction t with
  | con f => rfl
  | apply f a ihf iha =>
    simp [tyHasVar] at h
    simp [collectVars, ihf h.1, iha h.2]
  | var i => simp [tyHasVar] at h
  | skol u => rfl

theorem canonTy_of_ground (vs : List Nat) (t : Ty) (h : tyHasVar t = false) :
    canonTy vs t = t := by
  induction t with
  | con f => rfl
  | apply f a ihf iha =>
    simp [tyHasVar] at h
    simp [canonTy, ihf h.1, iha h.2]
  | var i => simp [tyHasVar] at h
  | skol u => rfl

theorem canonAtom_of_ground (a : Atom) (h : tyHasVar a.ty = false) : canonAtom a = a := by
  cases a with
  | mk t k => simp [canonAtom, canonTy_of_ground _ _ h]

theorem substTy_of_ground (σ : Subst) (t : Ty) (h : tyHasVar t = false) : substTy σ t = t := by
  induction t with
  | con f => rfl
  | apply f a ihf iha =>
    simp [tyHasVar] at h
    simp [substTy, ihf h.1, iha h.2]
  | var i => simp [tyHasVar] at h
  | skol u => rfl

theorem canonAtom_gAtom (n : Nat) : canonAtom (gAtomN n) = gAtomN n :=
  canonAtom_of_ground _ (giterZ_hasVar n)

theorem sAtom_hasVar (n : Nat) : tyHasVar (sAtomN n).ty = false := by
  simp [sAtomN, tyHasVar, giterZ_hasVar]

theorem canonAtom_sAtom (n : Nat) : canonAtom (sAtomN n) = sAtomN n :=
  canonAtom_of_ground _ (sAtom_hasVar n)

theorem gAtom_ne_sAtom (m k : Nat) : gAtomN m ≠ sAtomN k := by
  cases m with
  | zero => simp [gAtomN, sAtomN, GiterZ]
  | succ m => simp [gAtomN, sAtomN, GiterZ]

theorem gAtom_inj {m n : Nat} (h : gAtomN m = gAtomN n) : m = n := by
  simp only [gAtomN, Atom.mk.injEq] at h
  exact giterZ_inj h.1

theorem sAtom_inj {m n : Nat} (h : sAtomN m = sAtomN n) : m = n := by
  simp only [sAtomN, Atom.mk.injEq, Ty.apply.injEq] at h
  exact giterZ_inj h.1.2

theorem unify_giterZ_var (n i : Nat) : unify (GiterZ n) (.var i) = some [(i, GiterZ n)] := by
  cases n <;> simp [GiterZ, unify]

theorem matchClause_sAtom_z (n nv : Nat) : matchClause (sAtomN n) zC nv = none := by
  simp [matchClause, zC, sAtomN, shiftTy, unify]

theorem matchClause_sAtom_g (n nv : Nat) : matchClause (sAtomN n) gC nv = none := by
  simp [matchClause, gC, sAtomN, shiftTy, unify]

theorem matchClause_sAtom_s (n nv : Nat) :
    matchClause (sAtomN n) sC nv = some ([(nv, GiterZ n)], [gAtomN n, sAtomN (n + 1)]) := by
  simp [matchClause, sC, sAtomN, gAtomN, GiterZ, shiftTy, unify, unify_giterZ_var, instAtom,
    substTy, List.lookup]

theorem matchClause_gAtom0_z (nv : Nat) : matchClause (gAtomN 0) zC nv = some ([], []) := by
  simp [matchClause, zC, gAtomN, GiterZ, shiftTy, unify]

theorem matchClause_gAtom0_g (nv : Nat) : matchClause (gAtomN 0) gC nv = none := by
  simp [matchClause, gC, gAtomN, GiterZ, shiftTy, unify]

theorem matchClause_gAtom0_s (nv : Nat) : matchClause (gAtomN 0) sC nv = none := by
  simp [matchClause, sC, gAtomN, GiterZ, shiftTy, unify]

theorem matchClause_gAtomS_z (n nv : Nat) : matchClause (gAtomN (n + 1)) zC nv = none := by
  simp [matchClause, zC, gAtomN, GiterZ, shiftTy, unify]

theorem matchClause_gAtomS_g (n nv : Nat) :
    matchClause (gAtomN (n + 1)) gC nv = some ([(nv, GiterZ n)], [gAtomN n]) := by
  simp [matchClause, gC, gAtomN, GiterZ, shiftTy, unify, unify_giterZ_var, instAtom, substTy,
    List.lookup]

theorem matchClause_gAtomS_s (n nv : Nat) : matchClause (gAtomN (n + 1)) sC nv = none := by
  simp [matchClause, sC, gAtomN, GiterZ, shiftTy, unify]

theorem envClauses : ([] : List Clause) ++ overflowProgram.clauses = [zC, gC, sC] := rfl

theorem overflow_gchain (d : Nat) :
    ∀ (n nv : Nat) (stack : List Atom), (∀ m, m ≤ n → gAtomN m ∉ stack) →
      solveAtom overflowProgram [] d stack nv (gAtomN n) = .error .overflow ∨
      ∃ σ, solveAtom overflowProgram [] d stack nv (gAtomN n) = .ok (some (.Yes, σ)) := by
  induction d with
  | zero => intro n nv stack _; exact Or.inl rfl
  | succ d ih =>
    intro n nv stack h
    have hns : gAtomN n ∉ stack := h n le_rfl
    cases n with
    | zero =>
      simp only [solveAtom, canonAtom_gAtom]
      rw [if_neg hns, envClauses]
      simp only [clausesFold, conjFold, matchClause_gAtom0_z, matchClause_gAtom0_g,
        matchClause_gAtom0_s, combineCands]
      exact Or.inr ⟨_, rfl⟩
    | succ n =>
      have hcond : ∀ m, m ≤ n → gAtomN m ∉ (gAtomN (n + 1) :: stack) := by
        intro m hm
        simp only [List.mem_cons, not_or]
        refine ⟨fun hEq => ?_, h m (Nat.le_succ_of_le hm)⟩
        have := gAtom_inj hEq
        omega
      have hsub : ∀ acc : Subst,
          (⟨substTy acc (gAtomN n).ty, (gAtomN n).trait⟩ : Atom) = gAtomN n := by
        intro acc
        simp [gAtomN, substTy_of_ground _ _ (giterZ_hasVar n)]
      simp only [solveAtom, canonAtom_gAtom]
      rw [if_neg hns, envClauses]
      simp only [clausesFold, conjFold, matchClause_gAtomS_z, matchClause_gAtomS_g,
        matchClause_gAtomS_s, hsub]
      rcases ih n (nv + gC.binders) (gAtomN (n + 1) :: stack) hcond with herr | ⟨σ, hok⟩
      · rw [herr]
        exact Or.inl rfl
      · rw [hok]
        exact Or.inr ⟨_, rfl⟩

theorem overflow_schain (d : Nat) :
    ∀ (n nv : Nat) (stack : List Atom),
      (∀ m, gAtomN m ∉ stack) → (∀ m, n ≤ m → sAtomN m ∉ stack) →
      solveAtom overflowProgram [] d stack nv (sAtomN n) = .error .overflow := by
  induction d with
  | zero => intro n nv stack _ _; rfl
  | succ d ih =>
    intro n nv stack hg hs
    have hns : sAtomN n ∉ stack := hs n le_rfl
    have hgcond : ∀ m, gAtomN m ∉ (sAtomN n :: stack) := by
      intro m
      simp only [List.mem_cons, not_or]
      exact ⟨gAtom_ne_sAtom m n, hg m⟩
    have hscond : ∀ m, n + 1 ≤ m → sAtomN m ∉ (sAtomN n :: stack) := by
      intro m hm
      simp only [List.mem_cons, not_or]
      refine ⟨fun hEq => ?_, hs m (by omega)⟩
      have := sAtom_inj hEq
      omega
    have hsubG : ∀ acc : Subst,
        (⟨substTy acc (gAtomN n).ty, (gAtomN n).trait⟩ : Atom) = gAtomN n := by
      intro acc
      simp [gAtomN, substTy_of_ground _ _ (giterZ_hasVar n)]
    have hsubS : ∀ acc : Subst,
        (⟨substTy acc (sAtomN (n + 1)).ty, (sAtomN (n + 1)).trait⟩ : Atom) = sAtomN (n + 1) := by
      intro acc
      have hv : tyHasVar (Ty.apply (Ty.con 2) (GiterZ (n + 1))) = false := by
        simp [tyHasVar, giterZ_hasVar]
      simp [sAtomN, substTy_of_ground _ _ hv]
    simp only [solveAtom, canonAtom_sAtom]
    rw [if_neg hns, envClauses]
    simp only [clausesFold, conjFold, matchClause_sAtom_z, matchClause_sAtom_g,
      matchClause_sAtom_s, hsubG, hsubS]
    rcases overflow_gchain d n (nv + sC.binders) (sAtomN n :: stack)
        (fun m _ => hgcond m) with herr | ⟨σ, hok⟩
    · simp only [herr]
    · simp only [hok]
      rw [ih (n + 1) (nv + sC.binders) (sAtomN n :: stack) hgcond hscond]

/-- C7: for the program whose only proof of the goal that S of Z is Q
requires unbounded recursion, the solver entry point terminates with the
fatal overflow error for every configured recursion-depth ceiling; the
error is a value distinct from definite non-provability by its type. -/
theorem overflow_spec :
    ∀ depth : Nat,
      solveRoot overflowProgram [] 0 (.atom (sAtomN 0)) depth = .error .overflow := by
  intro depth
  have h := overflow_schain depth 0 0 []
    (fun m => List.not_mem_nil _) (fun m _ => List.not_mem_nil _)
  simp [solveRoot, solveGoal, h]

theorem overflow_spec_witness :
    solveRoot overflowProgram [] 0 (.atom (sAtomN 0)) 3 = .error .overflow :=
  overflow_spec 3

theorem solution_map_spec_witness :
    ((Solution.mk Successful.Yes ⟨⟨0, []⟩, 2⟩ : Solution Nat).map (fun x => x + 1)).successful =
      Successful.Yes :=
  (solution_map_spec Nat Nat (Solution.mk Successful.Yes ⟨⟨0, []⟩, 2⟩) (fun x => x + 1)).1
